import Mathlib

/-!
Verification of the feature-definition compilation engine
(`packages/back-end/src/services/features.ts`).

JavaScript values produced by the compiler are modelled by the inductive
type `JSValue`; JavaScript numbers are modelled as rationals (`ℚ`), and
`NaN` outcomes of `parseFloat` / `JSON.parse` number handling are modelled
with `Option`.  Records with optional fields are modelled as structures of
`Option` fields (`none` = field absent from the object).
-/

-- Let concrete rational computations evaluate by reduction.
attribute [local semireducible] Rat.add Rat.mul Rat.inv Rat.sub Rat.ofScientific

/-- A JavaScript/JSON value: `null`, booleans, numbers (as `ℚ`),
strings, arrays and objects (ordered key/value lists, as in JS). -/
inductive JSValue where
  | null : JSValue
  | bool (b : Bool) : JSValue
  | num (q : ℚ) : JSValue
  | str (s : String) : JSValue
  | arr (elems : List JSValue) : JSValue
  | obj (fields : List (String × JSValue)) : JSValue
deriving Repr

/-- Digits of a natural number (most significant first). -/
def natDigits (n : Nat) : List Char :=
  (Nat.toDigits 10 n)

/-- Skip JavaScript whitespace characters. -/
def skipWs : List Char → List Char
  | c :: cs => if c = ' ' ∨ c = '\t' ∨ c = '\n' ∨ c = '\r' then skipWs cs else c :: cs
  | [] => []

/-- Take a maximal prefix of decimal digits, returning them and the rest. -/
def takeDigits : List Char → (List Char × List Char)
  | c :: cs =>
    if c.isDigit then
      let (ds, rest) := takeDigits cs
      (c :: ds, rest)
    else ([], c :: cs)
  | [] => ([], [])

/-- Value of a list of decimal digits (most significant first). -/
def digitsToNat (ds : List Char) : Nat :=
  ds.foldl (fun acc c => acc * 10 + (c.toNat - '0'.toNat)) 0

/-- `10 ^ n` as a rational (kept on `ℕ` so it evaluates by kernel
reduction). -/
def pow10 (n : Nat) : ℚ :=
  ((10 ^ n : ℕ) : ℚ)

/-- `q * 10 ^ e` for an integer exponent `e`. -/
def mulPow10 (q : ℚ) (e : ℤ) : ℚ :=
  match e with
  | .ofNat n => q * pow10 n
  | .negSucc n => q / pow10 (n + 1)

/-- Models JavaScript `parseFloat`: skip leading whitespace, optional
sign, then the longest prefix shaped `digits [. digits] [e[±]digits]`
(also accepting a leading `.`); `none` models a `NaN` result (no number
could be parsed).  `Infinity` inputs are outside this model's scope. -/
def parseFloat (s : String) : Option ℚ :=
  let cs := skipWs s.data
  let (sign, cs) : ℚ × List Char :=
    match cs with
    | '-' :: rest => (-1, rest)
    | '+' :: rest => (1, rest)
    | _ => (1, cs)
  let (intDs, cs) := takeDigits cs
  let (fracDs, cs) :=
    match cs with
    | '.' :: rest => takeDigits rest
    | _ => ([], cs)
  if intDs = [] ∧ fracDs = [] then
    none
  else
    let mantissa : ℚ :=
      (digitsToNat intDs : ℚ) + (digitsToNat fracDs : ℚ) / pow10 fracDs.length
    let exp : ℤ :=
      match cs with
      | e :: rest =>
        if e = 'e' ∨ e = 'E' then
          match rest with
          | '-' :: rest2 =>
            let (eds, _) := takeDigits rest2
            if eds = [] then 0 else -(digitsToNat eds : ℤ)
          | '+' :: rest2 =>
            let (eds, _) := takeDigits rest2
            if eds = [] then 0 else (digitsToNat eds : ℤ)
          | rest2 =>
            let (eds, _) := takeDigits rest2
            if eds = [] then 0 else (digitsToNat eds : ℤ)
        else 0
      | [] => 0
    some (mulPow10 (sign * mantissa) exp)

/-- Is the character an ASCII hexadecimal digit? -/
def isHexDigitChar (c : Char) : Bool :=
  c.isDigit || ('a' ≤ c && c ≤ 'f') || ('A' ≤ c && c ≤ 'F')

/-- Parse the 4 hex digits of a `\uXXXX` escape; `none` when malformed. -/
def parseHex4 : List Char → Option (Char × List Char)
  | a :: b :: c :: d :: rest =>
    if isHexDigitChar a ∧ isHexDigitChar b ∧ isHexDigitChar c ∧ isHexDigitChar d then
      let hv : Char → Nat := fun ch =>
        if ch.isDigit then ch.toNat - '0'.toNat
        else if 'a' ≤ ch ∧ ch ≤ 'f' then ch.toNat - 'a'.toNat + 10
        else ch.toNat - 'A'.toNat + 10
      some (Char.ofNat (((hv a * 16 + hv b) * 16 + hv c) * 16 + hv d), rest)
    else none
  | _ => none

/-- Parse the body of a JSON string literal (after the opening quote),
returning the decoded characters and the input after the closing quote. -/
def parseJSONString (fuel : Nat) (cs : List Char) : Option (List Char × List Char) :=
  match fuel with
  | 0 => none
  | fuel + 1 =>
    match cs with
    | [] => none
    | '"' :: rest => some ([], rest)
    | '\\' :: e :: rest =>
      match e with
      | '"' => (parseJSONString fuel rest).map (fun (s, r) => ('"' :: s, r))
      | '\\' => (parseJSONString fuel rest).map (fun (s, r) => ('\\' :: s, r))
      | '/' => (parseJSONString fuel rest).map (fun (s, r) => ('/' :: s, r))
      | 'b' => (parseJSONString fuel rest).map (fun (s, r) => ('\x08' :: s, r))
      | 'f' => (parseJSONString fuel rest).map (fun (s, r) => ('\x0c' :: s, r))
      | 'n' => (parseJSONString fuel rest).map (fun (s, r) => ('\n' :: s, r))
      | 'r' => (parseJSONString fuel rest).map (fun (s, r) => ('\r' :: s, r))
      | 't' => (parseJSONString fuel rest).map (fun (s, r) => ('\t' :: s, r))
      | 'u' =>
        match parseHex4 rest with
        | some (c, rest2) => (parseJSONString fuel rest2).map (fun (s, r) => (c :: s, r))
        | none => none
      | _ => none
    | c :: rest => (parseJSONString fuel rest).map (fun (s, r) => (c :: s, r))

/-- Parse a JSON number starting at `cs` (strict JSON grammar: optional
`-`, integer part without leading zeros, optional fraction, optional
exponent).  Returns the value and remaining input. -/
def parseJSONNumber (cs : List Char) : Option (ℚ × List Char) :=
  let (neg, cs1) : Bool × List Char :=
    match cs with
    | '-' :: rest => (true, rest)
    | _ => (false, cs)
  let (intDs, cs2) := takeDigits cs1
  match intDs with
  | [] => none
  | d0 :: drest =>
    -- JSON forbids leading zeros: "0" alone is fine, "01" is not.
    if d0 = '0' ∧ drest ≠ [] then none
    else
      let (fracDs, cs3, fracOk) : List Char × List Char × Bool :=
        match cs2 with
        | '.' :: rest =>
          let (ds, r) := takeDigits rest
          (ds, r, !ds.isEmpty)
        | _ => ([], cs2, true)
      if fracOk = false then none
      else
        let (exp, cs4, expOk) : ℤ × List Char × Bool :=
          match cs3 with
          | e :: rest =>
            if e = 'e' ∨ e = 'E' then
              match rest with
              | '-' :: rest2 =>
                let (eds, r) := takeDigits rest2
                (-(digitsToNat eds : ℤ), r, !eds.isEmpty)
              | '+' :: rest2 =>
                let (eds, r) := takeDigits rest2
                ((digitsToNat eds : ℤ), r, !eds.isEmpty)
              | rest2 =>
                let (eds, r) := takeDigits rest2
                ((digitsToNat eds : ℤ), r, !eds.isEmpty)
            else (0, cs3, true)
          | [] => (0, cs3, true)
        if expOk = false then none
        else
          let mantissa : ℚ :=
            (digitsToNat intDs : ℚ) +
              (digitsToNat fracDs : ℚ) / pow10 fracDs.length
          some (mulPow10 (if neg then -mantissa else mantissa) exp, cs4)

mutual

/-- Parse one JSON value at the head of the input (whitespace already
allowed before it), returning the value and the remaining input. -/
def parseJSONValue (fuel : Nat) (cs : List Char) : Option (JSValue × List Char) :=
  match fuel with
  | 0 => none
  | fuel + 1 =>
    match skipWs cs with
    | 'n' :: 'u' :: 'l' :: 'l' :: rest => some (.null, rest)
    | 't' :: 'r' :: 'u' :: 'e' :: rest => some (.bool true, rest)
    | 'f' :: 'a' :: 'l' :: 's' :: 'e' :: rest => some (.bool false, rest)
    | '"' :: rest =>
      (parseJSONString (rest.length + 1) rest).map
        (fun (s, r) => (.str (String.mk s), r))
    | '[' :: rest =>
      (match skipWs rest with
       | ']' :: rest2 => some (.arr [], rest2)
       | other => (parseJSONArrayItems fuel other).map (fun (xs, r) => (.arr xs, r)))
    | '\x7b' :: rest =>
      (match skipWs rest with
       | '\x7d' :: rest2 => some (.obj [], rest2)
       | other => (parseJSONObjectItems fuel other).map (fun (xs, r) => (.obj xs, r)))
    | other => (parseJSONNumber other).map (fun (q, r) => (.num q, r))

/-- Parse the comma-separated items of a JSON array, including the
closing bracket. -/
def parseJSONArrayItems (fuel : Nat) (cs : List Char) : Option (List JSValue × List Char) :=
  match fuel with
  | 0 => none
  | fuel + 1 =>
    match parseJSONValue fuel cs with
    | none => none
    | some (v, rest) =>
      match skipWs rest with
      | ',' :: rest2 =>
        (parseJSONArrayItems fuel rest2).map (fun (xs, r) => (v :: xs, r))
      | ']' :: rest2 => some ([v], rest2)
      | _ => none

/-- Parse the comma-separated `"key": value` members of a JSON object,
including the closing brace. -/
def parseJSONObjectItems (fuel : Nat) (cs : List Char) :
    Option (List (String × JSValue) × List Char) :=
  match fuel with
  | 0 => none
  | fuel + 1 =>
    match skipWs cs with
    | '"' :: rest =>
      match parseJSONString (rest.length + 1) rest with
      | none => none
      | some (key, rest2) =>
        match skipWs rest2 with
        | ':' :: rest3 =>
          match parseJSONValue fuel rest3 with
          | none => none
          | some (v, rest4) =>
            match skipWs rest4 with
            | ',' :: rest5 =>
              (parseJSONObjectItems fuel rest5).map
                (fun (xs, r) => ((String.mk key, v) :: xs, r))
            | '\x7d' :: rest5 => some ([(String.mk key, v)], rest5)
            | _ => none
        | _ => none
    | _ => none

end

/-- Models `JSON.parse`: parse the whole string as one JSON value;
`none` models a thrown `SyntaxError` (caught at every use site in the
source).  Trailing non-whitespace makes the parse fail. -/
def jsonParse (s : String) : Option JSValue :=
  match parseJSONValue (s.length + 1) s.data with
  | some (v, rest) => if skipWs rest = [] then some v else none
  | none => none

/-- `roundVariationWeight` (features.ts line 18):
`Math.round(num * 1000) / 1000`.  JavaScript `Math.round` rounds
half-up (toward `+∞`), which is exactly Mathlib's `round` on `ℚ`. -/
def roundVariationWeight (num : ℚ) : ℚ :=
  ((round (num * 1000) : ℤ) : ℚ) / 1000

/-- `getJSONValue` (features.ts lines 23–35): coerce a feature's raw
string value to its declared runtime type.  The value type is kept as a
string, as in the source's sequential comparisons, so that behaviour on
unrecognized types is represented.  `parseFloat(value) || 0` maps a
`NaN` (and `±0`) parse result to `0`. -/
def getJSONValue (type : String) (value : String) : JSValue :=
  if type = "json" then
    match jsonParse value with
    | some v => v
    | none => JSValue.null
  else if type = "number" then
    JSValue.num ((parseFloat value).getD 0)
  else if type = "string" then
    JSValue.str value
  else if type = "boolean" then
    JSValue.bool (if value = "false" then false else true)
  else
    JSValue.null

/-- One experiment variation: `{value, weight}` (types/feature.ts,
consumed at features.ts lines 70–79). -/
structure ExperimentValue where
  value : String
  weight : ℚ
deriving Repr, DecidableEq

/-- An experiment rule's namespace: `{enabled, name, range}` (consumed at
features.ts lines 87–95).  The two range bounds are stored strings fed to
`parseFloat`. -/
structure NamespaceValue where
  enabled : Bool
  name : String
  range0 : String
  range1 : String
deriving Repr, DecidableEq

/-- A stored feature rule.  The TS `FeatureRule` union is flattened into
one structure whose type-specific fields are defaulted; `nspace` models
the TS field `namespace` (a Lean keyword). -/
structure FeatureRule where
  id : Option String := none
  type : String
  enabled : Bool := true
  condition : Option String := none
  value : String := ""
  values : List ExperimentValue := []
  coverage : ℚ := 0
  trackingKey : Option String := none
  hashAttribute : Option String := none
  nspace : Option NamespaceValue := none
deriving Repr, DecidableEq

/-- Per-environment settings of a feature: `enabled` flag and the
ordered rule sequence (possibly absent, cf. `settings.rules?.` at
features.ts line 55). -/
structure FeatureEnvironment where
  enabled : Bool
  rules : Option (List FeatureRule) := none
deriving Repr, DecidableEq

/-- A stored feature document (`FeatureInterface`), restricted to the
fields the service layer reads or writes.  `environmentSettings` is the
insertion-ordered string-keyed record of environment settings. -/
structure FeatureInterface where
  id : String
  archived : Bool := false
  description : Option String := none
  organization : String
  owner : String
  project : Option String := none
  dateCreated : Nat := 0
  dateUpdated : Nat := 0
  valueType : String
  defaultValue : String
  tags : Option (List String) := none
  environmentSettings : Option (List (String × FeatureEnvironment)) := none
deriving Repr, DecidableEq

/-- A compiled rule record (`FeatureDefinitionRule`): every field
optional, `none` meaning the field is absent from the JS object.
`nspace` models the output field `namespace`. -/
structure FeatureDefinitionRule where
  condition : Option JSValue := none
  force : Option JSValue := none
  variations : Option (List JSValue) := none
  coverage : Option ℚ := none
  weights : Option (List ℚ) := none
  key : Option String := none
  hashAttribute : Option String := none
  nspace : Option (String × ℚ × ℚ) := none
deriving Repr

/-- A compiled feature definition: coerced default value and the
optional compiled rule list (`none` = `rules` field absent). -/
structure FeatureDefinition where
  defaultValue : JSValue
  rules : Option (List FeatureDefinitionRule) := none
deriving Repr

/-- JS string-keyed record access `obj[key]` on an insertion-ordered
key/value list. -/
def jsLookup {α : Type} : List (String × α) → String → Option α
  | [], _ => none
  | (k, v) :: rest, key => if k = key then some v else jsLookup rest key

/-- JS record assignment `obj[key] = v`: overwrite in place when the key
exists, append otherwise. -/
def recordSet {α : Type} (defs : List (String × α)) (key : String) (v : α) :
    List (String × α) :=
  if defs.any (fun p => p.1 = key) then
    defs.map (fun p => (p.1, if p.1 = key then v else p.2))
  else
    defs ++ [(key, v)]

/-- JS truthiness of an optional string: `undefined` and `""` are falsy. -/
def strortruthy (s : Option String) : Bool :=
  match s with
  | some s => s != ""
  | none => false

/-- `feature.environmentSettings?.[environment]` (features.ts line 45). -/
def envSettings (feature : FeatureInterface) (environment : String) :
    Option FeatureEnvironment :=
  match feature.environmentSettings with
  | some m => jsLookup m environment
  | none => none

/-- The skip test of features.ts line 48:
`!settings || !settings.enabled || feature.archived`. -/
def featureSkipped (feature : FeatureInterface) (environment : String) : Bool :=
  match envSettings feature environment with
  | none => true
  | some settings => !settings.enabled || feature.archived

/-- The body of the per-rule `map` (features.ts lines 57–105).  The JS
code mutates an initially empty record `rule`; here each field is
`some`/`none` under the same conditions.  The `condition` field is set
first (for every rule type), swallowing JSON parse failures; then the
branch on `r.type` fills the type-specific fields.  A rule whose type is
none of force/experiment/rollout yields the record with only the
condition handling applied. -/
def compileRule (valueType : String) (r : FeatureRule) : FeatureDefinitionRule :=
  let cond : Option JSValue :=
    match r.condition with
    | some c => if c ≠ "" ∧ c ≠ "\x7b\x7d" then jsonParse c else none
    | none => none
  if r.type = "force" then
    { condition := cond,
      force := some (getJSONValue valueType r.value) }
  else if r.type = "experiment" then
    { condition := cond,
      variations := some (r.values.map (fun v => getJSONValue valueType v.value)),
      coverage := some r.coverage,
      weights := some (((r.values.map (fun v => v.weight)).map
        (fun w => if w < 0 then 0 else if w > 1 then 1 else w)).map
          roundVariationWeight),
      key := if strortruthy r.trackingKey then r.trackingKey else none,
      hashAttribute := if strortruthy r.hashAttribute then r.hashAttribute else none,
      nspace :=
        match r.nspace with
        | some ns =>
          if ns.enabled ∧ ns.name ≠ "" then
            some (ns.name, (parseFloat ns.range0).getD 0, (parseFloat ns.range1).getD 0)
          else none
        | none => none }
  else if r.type = "rollout" then
    { condition := cond,
      force := some (getJSONValue valueType r.value),
      coverage := some (if r.coverage > 1 then 1 else if r.coverage < 0 then 0
        else r.coverage),
      hashAttribute := if strortruthy r.hashAttribute then r.hashAttribute else none }
  else
    { condition := cond }

/-- The definition record assigned at features.ts lines 52–110, with the
trailing `delete` of an empty `rules` array folded in: the `rules` field
is absent exactly when the compiled list is empty. -/
def compileFeatureDef (feature : FeatureInterface) (settings : FeatureEnvironment) :
    FeatureDefinition :=
  let rules : List FeatureDefinitionRule :=
    match settings.rules with
    | some rs => (rs.filter (fun r => r.enabled)).map (compileRule feature.valueType)
    | none => []
  { defaultValue := getJSONValue feature.valueType feature.defaultValue,
    rules := if rules.isEmpty then none else some rules }

/-- One step of the assembler's `forEach` (features.ts lines 44–111):
skip the feature when the environment settings are missing or disabled
or the feature is archived, otherwise assign its compiled definition. -/
def addFeatureDef (environment : String)
    (defs : List (String × FeatureDefinition)) (feature : FeatureInterface) :
    List (String × FeatureDefinition) :=
  match envSettings feature environment with
  | none => defs
  | some settings =>
    if !settings.enabled || feature.archived then defs
    else recordSet defs feature.id (compileFeatureDef feature settings)

/-- `getFeatureDefinitions` (features.ts lines 36–114) restricted to its
pure core: the feature collection fetched by `getAllFeatures` is passed
in as a list, and the result models the `defs` record as an
insertion-ordered key/value list.  The environment defaults to
`"production"` as in the source. -/
def getFeatureDefinitions (features : List FeatureInterface)
    (environment : String := "production") : List (String × FeatureDefinition) :=
  features.foldl (addFeatureDef environment) []

/-- Strip trailing `'0'` characters. -/
def trimTrailingZeros (cs : List Char) : List Char :=
  (cs.reverse.dropWhile (fun c => c = '0')).reverse

/-- Decimal digit characters of a natural number. -/
def natToChars (n : Nat) : List Char :=
  Nat.toDigits 10 n

/-- Left-pad with `'0'` to the given length. -/
def padZerosTo (len : Nat) (cs : List Char) : List Char :=
  List.replicate (len - cs.length) '0' ++ cs

/-- Smallest `k < 64` with `den ∣ 10 ^ k`, if any. -/
def pow10Exponent (den : Nat) : Option Nat :=
  (List.range 64).find? (fun k => 10 ^ k % den = 0)

/-- Models JS number-to-string conversion (`x + ""`) for finite-decimal
rationals — the only values the modelled `parseFloat`/`JSON.parse`
produce.  Renders sign, integer part, and fraction digits without
trailing zeros; rationals without a finite decimal expansion fall back
to `num/den` (unreachable from the parsers).  JS exponential notation
(magnitudes outside `[1e-6, 1e21)`) is outside this model's scope. -/
def decimalString (q : ℚ) : String :=
  let sign := if q < 0 then "-" else ""
  let n := q.num.natAbs
  let d := q.den
  match pow10Exponent d with
  | some k =>
    let m := n * (10 ^ k / d)
    let intPart := String.mk (natToChars (m / 10 ^ k))
    let fracDigits := trimTrailingZeros (padZerosTo k (natToChars (m % 10 ^ k)))
    if fracDigits.isEmpty then sign ++ intPart
    else sign ++ intPart ++ "." ++ String.mk fracDigits
  | none => sign ++ String.mk (natToChars n) ++ "/" ++ String.mk (natToChars d)

/-- `parseFloat(v) + ""`: a `NaN` parse prints as `"NaN"`. -/
def jsNumString (parsed : Option ℚ) : String :=
  match parsed with
  | some q => decimalString q
  | none => "NaN"

/-- JSON string escaping for `JSON.stringify` output. -/
def escapeJSONChar (c : Char) : List Char :=
  if c = '"' then ['\\', '"']
  else if c = '\\' then ['\\', '\\']
  else if c = '\n' then ['\\', 'n']
  else if c = '\r' then ['\\', 'r']
  else if c = '\t' then ['\\', 't']
  else if c = '\x08' then ['\\', 'b']
  else if c = '\x0c' then ['\\', 'f']
  else if c.toNat < 32 then
    let hex : Nat → Char := fun h => if h < 10 then Char.ofNat ('0'.toNat + h)
      else Char.ofNat ('a'.toNat + h - 10)
    ['\\', 'u', '0', '0', hex (c.toNat / 16), hex (c.toNat % 16)]
  else [c]

/-- A JSON string literal with escapes. -/
def quoteJSONString (s : String) : String :=
  "\"" ++ String.mk (s.data.foldr (fun c acc => escapeJSONChar c ++ acc) []) ++ "\""

mutual

/-- Models `JSON.stringify(v, null, 2)` at nesting depth `depth`. -/
def stringifyIndent2 (depth : Nat) : JSValue → String
  | .null => "null"
  | .bool b => if b then "true" else "false"
  | .num q => decimalString q
  | .str s => quoteJSONString s
  | .arr xs =>
    if xs.isEmpty then "[]"
    else
      let pad := String.mk (List.replicate (2 * (depth + 1)) ' ')
      let closePad := String.mk (List.replicate (2 * depth) ' ')
      "[\n" ++ pad ++
        String.intercalate (",\n" ++ pad) (stringifyList (depth + 1) xs) ++
        "\n" ++ closePad ++ "]"
  | .obj fields =>
    if fields.isEmpty then "\x7b\x7d"
    else
      let pad := String.mk (List.replicate (2 * (depth + 1)) ' ')
      let closePad := String.mk (List.replicate (2 * depth) ' ')
      "\x7b\n" ++ pad ++
        String.intercalate (",\n" ++ pad) (stringifyFields (depth + 1) fields) ++
        "\n" ++ closePad ++ "\x7d"

/-- Stringify each array element. -/
def stringifyList (depth : Nat) : List JSValue → List String
  | [] => []
  | x :: xs => stringifyIndent2 depth x :: stringifyList depth xs

/-- Stringify each `"key": value` member. -/
def stringifyFields (depth : Nat) : List (String × JSValue) → List String
  | [] => []
  | (k, v) :: xs =>
    (quoteJSONString k ++ ": " ++ stringifyIndent2 depth v) :: stringifyFields depth xs

end

/-- `parseDefaultValue` (features.ts lines 193–211): canonicalize a
feature's default value for storage.  The `boolean` branch maps the
exact string `"true"` to `"true"` and everything else to `"false"`; the
`number` branch stores `parseFloat(defaultValue) + ""`; `string` is kept
verbatim; any other value type round-trips the value through
`JSON.parse`/`JSON.stringify(·, null, 2)`, throwing (modelled by
`Except.error`) when the parse fails. -/
def parseDefaultValue (defaultValue : String) (valueType : String) :
    Except String String :=
  if valueType = "boolean" then
    .ok (if defaultValue = "true" then "true" else "false")
  else if valueType = "number" then
    .ok (jsNumString (parseFloat defaultValue))
  else if valueType = "string" then
    .ok defaultValue
  else
    match jsonParse defaultValue with
    | some v => .ok (stringifyIndent2 0 v)
    | none => .error "JSON parse error for default value"

/-- `addIdsToRules` on one rule list (features.ts lines 132–139),
threading the fresh-id counter: an enabled check is not involved — every
rule gets a tracking key (experiments without one) and an id (rules
without one). -/
def addIdsToRuleList (genRuleId : Nat → String) (featureId : String) :
    Nat → List FeatureRule → Nat × List FeatureRule
  | n, [] => (n, [])
  | n, r :: rest =>
    let r1 := if r.type = "experiment" ∧ strortruthy r.trackingKey = false then
        { r with trackingKey := some featureId } else r
    let (n2, r2) : Nat × FeatureRule :=
      if strortruthy r1.id = false then (n + 1, { r1 with id := some (genRuleId n) })
      else (n, r1)
    let (n3, rest2) := addIdsToRuleList genRuleId featureId n2 rest
    (n3, r2 :: rest2)

/-- `addIdsToRules` over the environment-settings record (features.ts
lines 126–142): environments are visited in insertion order, and an
environment with no rules (or an empty list) is untouched. -/
def addIdsToRulesEnvs (genRuleId : Nat → String) (featureId : String) :
    Nat → List (String × FeatureEnvironment) → Nat × List (String × FeatureEnvironment)
  | n, [] => (n, [])
  | n, (k, env) :: rest =>
    let (n2, env2) : Nat × FeatureEnvironment :=
      match env.rules with
      | some rs =>
        if rs.isEmpty then (n, env)
        else
          let (n2, rs2) := addIdsToRuleList genRuleId featureId n rs
          (n2, { env with rules := some rs2 })
      | none => (n, env)
    let (n3, rest2) := addIdsToRulesEnvs genRuleId featureId n2 rest
    (n3, (k, env2) :: rest2)

/-- `addIdsToRules(environmentSettings = {}, featureId)`: the in-place
mutation is modelled by returning the updated record; a missing record
(defaulted to `{}` in the source) stays missing.  `genRuleId` models the
`uniqid("fr_")` generator applied at successive counter values. -/
def addIdsToRules (genRuleId : Nat → String)
    (environmentSettings : Option (List (String × FeatureEnvironment)))
    (featureId : String) : Option (List (String × FeatureEnvironment)) :=
  match environmentSettings with
  | some envs => some (addIdsToRulesEnvs genRuleId featureId 0 envs).2
  | none => none

/-- One character of the feature-key regex `[a-zA-Z0-9_.:|-]`. -/
def isFeatureKeyChar (c : Char) : Bool :=
  c.isAlphanum || c = '_' || c = '.' || c = ':' || c = '|' || c = '-'

/-- Models `id.toLowerCase()` character-wise (ids only hold ASCII, by
the key regex). -/
def lowerString (s : String) : String :=
  String.mk (s.data.map Char.toLower)

/-- The input of `createFeatureService`: `Partial<FeatureInterface>`,
every field optional. -/
structure CreateFeatureRequest where
  id : Option String := none
  archived : Option Bool := none
  description : Option String := none
  organization : Option String := none
  owner : Option String := none
  project : Option String := none
  valueType : Option String := none
  defaultValue : Option String := none
  tags : Option (List String) := none
  environmentSettings : Option (List (String × FeatureEnvironment)) := none
deriving Repr

/-- `createFeatureService` (features.ts lines 213–272).  External
collaborators are parameters: `genRuleId` models `uniqid("fr_")` and
`now` the `new Date()` timestamps.  Validation throws are
`Except.error` with the source's messages, in the source's order; the
success value is the `resultFeature` document (which is also what the
`createFeature` persistence call and the webhook dispatch receive). -/
def createFeatureService (genRuleId : Nat → String) (now : Nat)
    (feature : CreateFeatureRequest) : Except String FeatureInterface :=
  if strortruthy feature.id = false then .error "Must specify feature key"
  else
  let id := feature.id.getD ""
  if (id.data.all isFeatureKeyChar) = false then
    .error "Feature keys can only include letters, numbers, hyphens, and underscores."
  else if strortruthy feature.organization = false then
    .error "Organization could not be found"
  else if strortruthy feature.owner = false then
    .error "Owner must be specified"
  else if strortruthy feature.valueType = false then
    .error "Value type must be specified"
  else
  let valueType := feature.valueType.getD ""
  if (["boolean", "number", "string", "json"].contains valueType) = false then
    .error "Value type must be one of boolean, number, string, or json"
  else if strortruthy feature.defaultValue = false then
    .error "Default value must be specified"
  else
    match parseDefaultValue (feature.defaultValue.getD "") valueType with
    | .error e => .error e
    | .ok dv =>
      let resultFeature : FeatureInterface :=
        { id := lowerString id,
          archived := feature.archived.getD false,
          description := feature.description,
          organization := feature.organization.getD "",
          owner := feature.owner.getD "",
          project := feature.project,
          dateCreated := now,
          dateUpdated := now,
          valueType := valueType,
          defaultValue := dv,
          tags := feature.tags,
          environmentSettings := feature.environmentSettings }
      .ok { resultFeature with
            environmentSettings :=
              addIdsToRules genRuleId resultFeature.environmentSettings
                resultFeature.id }

/-- A collaborator invocation recorded by `updateFeatureService`: the
`updateFeature` persistence write (with the organization, the feature id
and the keys of the update record it receives) or the `featureUpdated`
webhook dispatch. -/
inductive UpdateEffect where
  | persist (organization : String) (featureId : String) (updateKeys : List String)
  | webhook
deriving Repr, DecidableEq

/-- The allow-list of mutable fields (features.ts lines 279–284). -/
def allowedKeys : List String :=
  ["tags", "description", "project", "owner"]

/-- `updateFeatureService` (features.ts lines 274–323).  The update
object is modelled by its insertion-ordered key/value list (values as
stored strings) and `findProjectById` models the project-existence
lookup.  `Except.error` models a throw — in the source every throw
happens before the `updateFeature` persistence call, so an error means
the feature was not mutated; on success the value lists the collaborator
invocations in order. -/
def updateFeatureService (findProjectById : String → String → Bool)
    (updates : List (String × String)) (feature : FeatureInterface)
    (featureId : String) : Except String (List UpdateEffect) :=
  let invalidKeys := (updates.map (fun p => p.1)).filter
    (fun k => (allowedKeys.contains k) = false)
  if invalidKeys.isEmpty = false then
    .error ("Invalid update fields for feature: [" ++
      String.intercalate ", " invalidKeys ++ "]")
  else
    let requiresWebhookExc : Except String Bool :=
      match jsLookup updates "project" with
      | some p =>
        if p ≠ "" then
          if findProjectById p feature.organization = false then
            .error "Project not found"
          else
            .ok (decide (some p ≠ feature.project))
        else .ok false
      | none => .ok false
    match requiresWebhookExc with
    | .error e => .error e
    | .ok requiresWebhook =>
      .ok ([UpdateEffect.persist feature.organization featureId
             ((updates.map (fun p => p.1)) ++ ["dateUpdated"])] ++
           (if requiresWebhook then [UpdateEffect.webhook] else []))

/-- The per-weight pipeline applied to each experiment variation weight
(features.ts lines 76–79): clamp to `[0, 1]`, then
`roundVariationWeight`. -/
def normalizeWeight (w : ℚ) : ℚ :=
  roundVariationWeight (if w < 0 then 0 else if w > 1 then 1 else w)

/-- A feature with a single enabled rule of unrecognized type. -/
def bogusRuleFeature : FeatureInterface :=
  { id := "f1", organization := "org", owner := "o",
    valueType := "string", defaultValue := "d",
    environmentSettings := some [("production",
      { enabled := true, rules := some [{ type := "bogus" }] })] }

/-- An experiment rule with a namespace (`enabled` as given, name `n1`,
range `["0.1", "0.6"]`). -/
def nsRule (enabled : Bool) : FeatureRule :=
  { type := "experiment",
    nspace := some { enabled := enabled, name := "n1",
                     range0 := "0.1", range1 := "0.6" } }

/-- A rollout rule that supplies an empty hash attribute. -/
def emptyHashRule : FeatureRule :=
  { type := "rollout", value := "v", coverage := 0.5,
    hashAttribute := some "" }

/-- The rollout rule of the spec's end-to-end scenario. -/
def showBannerRule : FeatureRule :=
  { type := "rollout", enabled := true, value := "false", coverage := 1.5,
    hashAttribute := some "id" }

/-- The feature of the spec's end-to-end scenario. -/
def showBannerFeature : FeatureInterface :=
  { id := "show-banner", organization := "org", owner := "o",
    valueType := "boolean", defaultValue := "true",
    environmentSettings := some [("production",
      { enabled := true, rules := some [showBannerRule] })] }

/-- An archived feature (with an enabled production environment). -/
def archivedFeature : FeatureInterface :=
  { id := "af", archived := true, organization := "org", owner := "o",
    valueType := "string", defaultValue := "d",
    environmentSettings := some [("production", { enabled := true })] }

/-- A feature whose only production rule is individually disabled. -/
def allOffFeature : FeatureInterface :=
  { id := "ff", organization := "org", owner := "o",
    valueType := "string", defaultValue := "d",
    environmentSettings := some [("production",
      { enabled := true,
        rules := some [{ type := "force", enabled := false, value := "x" }] })] }

/-- A force rule with a malformed condition string. -/
def badConditionRule : FeatureRule :=
  { type := "force", condition := some "\x7bbad json", value := "v" }

/-- A deterministic stand-in for the `uniqid("fr_")` generator. -/
def seqRuleId (n : Nat) : String :=
  "fr_" ++ String.mk (natToChars n)

/-- A creation request for a boolean feature with default `"yes"`. -/
def yesDefaultRequest : CreateFeatureRequest :=
  { id := some "Flag1", organization := some "org", owner := some "me",
    valueType := some "boolean", defaultValue := some "yes" }

/-- The stored document `createFeatureService` produces for
`yesDefaultRequest`. -/
def yesDefaultStored : FeatureInterface :=
  { id := "flag1", organization := "org", owner := "me",
    valueType := "boolean", defaultValue := "false" }

/-- A feature used as the update target in C9's witness. -/
def updateTargetFeature : FeatureInterface :=
  { id := "uf", organization := "org", owner := "o",
    valueType := "string", defaultValue := "d" }

/-! ### Helper lemmas about record lookup and the assembler fold -/

theorem jsLookup_eq_none_of_not_any {α : Type} (defs : List (String × α))
    (key : String) (h : defs.any (fun p => p.1 = key) = false) :
    jsLookup defs key = none := by
  induction defs with
  | nil => rfl
  | cons p rest ih =>
    rw [List.any_cons, Bool.or_eq_false_iff] at h
    obtain ⟨hp, hrest⟩ := h
    obtain ⟨k, v⟩ := p
    simp only [decide_eq_false_iff_not] at hp
    simp only [jsLookup, if_neg hp]
    exact ih hrest

theorem jsLookup_map_overwrite {α : Type} (defs : List (String × α))
    (key : String) (v : α) (h : defs.any (fun p => p.1 = key) = true) :
    jsLookup (defs.map (fun p => (p.1, if p.1 = key then v else p.2))) key =
      some v := by
  induction defs with
  | nil => simp at h
  | cons p rest ih =>
    obtain ⟨k, w⟩ := p
    by_cases hk : k = key
    · simp [jsLookup, hk]
    · rw [List.any_cons, Bool.or_eq_true] at h
      rcases h with h | h
      · simp only [decide_eq_true_eq] at h; exact absurd h hk
      · simpa [jsLookup, hk] using ih h

theorem jsLookup_map_ne {α : Type} (defs : List (String × α))
    (key i : String) (v : α) (h : i ≠ key) :
    jsLookup (defs.map (fun p => (p.1, if p.1 = key then v else p.2))) i =
      jsLookup defs i := by
  induction defs with
  | nil => rfl
  | cons p rest ih =>
    obtain ⟨k, w⟩ := p
    by_cases hki : k = i
    · simp [jsLookup, hki, h]
    · simp [jsLookup, hki, ih]

theorem jsLookup_singleton_ne {α : Type} (key i : String) (v : α) (h : i ≠ key) :
    jsLookup [(key, v)] i = none := by
  simp only [jsLookup, if_neg (fun hh : key = i => h hh.symm)]

theorem jsLookup_append_none {α : Type} (l1 l2 : List (String × α)) (i : String)
    (h : jsLookup l1 i = none) :
    jsLookup (l1 ++ l2) i = jsLookup l2 i := by
  induction l1 with
  | nil => rfl
  | cons p rest ih =>
    obtain ⟨k, w⟩ := p
    by_cases hk : k = i
    · exfalso; simp [jsLookup, hk] at h
    · simp only [jsLookup, if_neg hk] at h
      simp only [List.cons_append, jsLookup, if_neg hk]
      exact ih h

theorem jsLookup_append_singleton_ne {α : Type} (defs : List (String × α))
    (key i : String) (v : α) (h : i ≠ key) :
    jsLookup (defs ++ [(key, v)]) i = jsLookup defs i := by
  induction defs with
  | nil => simpa using jsLookup_singleton_ne key i v h
  | cons p rest ih =>
    obtain ⟨k, w⟩ := p
    simp only [List.cons_append]
    by_cases hk : k = i
    · simp [jsLookup, hk]
    · simp only [jsLookup, if_neg hk]
      exact ih

theorem jsLookup_recordSet_self {α : Type} (defs : List (String × α))
    (key : String) (v : α) :
    jsLookup (recordSet defs key v) key = some v := by
  unfold recordSet
  by_cases h : defs.any (fun p => p.1 = key) = true
  · rw [if_pos h]
    exact jsLookup_map_overwrite defs key v h
  · rw [if_neg h]
    have hnone := jsLookup_eq_none_of_not_any defs key (Bool.not_eq_true _ ▸ h)
    rw [jsLookup_append_none _ _ _ hnone]
    simp [jsLookup]

theorem jsLookup_recordSet_ne {α : Type} (defs : List (String × α))
    (key i : String) (v : α) (h : i ≠ key) :
    jsLookup (recordSet defs key v) i = jsLookup defs i := by
  unfold recordSet
  by_cases hany : defs.any (fun p => p.1 = key) = true
  · rw [if_pos hany]
    exact jsLookup_map_ne defs key i v h
  · rw [if_neg hany]
    exact jsLookup_append_singleton_ne defs key i v h

theorem addFeatureDef_skipped (environment : String)
    (defs : List (String × FeatureDefinition)) (f : FeatureInterface)
    (h : featureSkipped f environment = true) :
    addFeatureDef environment defs f = defs := by
  unfold featureSkipped at h
  unfold addFeatureDef
  rcases hs : envSettings f environment with _ | s
  · rfl
  · rw [hs] at h
    have h' : (!s.enabled || f.archived) = true := h
    show (if (!s.enabled || f.archived) = true then defs
          else recordSet defs f.id (compileFeatureDef f s)) = defs
    rw [if_pos h']

theorem addFeatureDef_active (environment : String)
    (defs : List (String × FeatureDefinition)) (f : FeatureInterface)
    (s : FeatureEnvironment)
    (hs : envSettings f environment = some s)
    (hen : s.enabled = true) (har : f.archived = false) :
    addFeatureDef environment defs f =
      recordSet defs f.id (compileFeatureDef f s) := by
  unfold addFeatureDef
  rcases hs' : envSettings f environment with _ | s'
  · rw [hs'] at hs; exact absurd hs (by simp)
  · rw [hs'] at hs
    injection hs with hss
    subst hss
    show (if (!s'.enabled || f.archived) = true then defs
          else recordSet defs f.id (compileFeatureDef f s')) =
      recordSet defs f.id (compileFeatureDef f s')
    rw [if_neg (by simp [hen, har])]

theorem jsLookup_addFeatureDef_ne (environment : String)
    (defs : List (String × FeatureDefinition)) (f : FeatureInterface)
    (i : String) (h : i ≠ f.id) :
    jsLookup (addFeatureDef environment defs f) i = jsLookup defs i := by
  unfold addFeatureDef
  rcases hs : envSettings f environment with _ | s
  · rfl
  · show jsLookup (if (!s.enabled || f.archived) = true then defs
        else recordSet defs f.id (compileFeatureDef f s)) i = jsLookup defs i
    by_cases hc : (!s.enabled || f.archived) = true
    · rw [if_pos hc]
    · rw [if_neg hc]
      exact jsLookup_recordSet_ne defs f.id i _ h

theorem featureSkipped_eq_true_iff (f : FeatureInterface) (environment : String) :
    featureSkipped f environment = true ↔
      (f.archived = true ∨ envSettings f environment = none ∨
        ∃ s, envSettings f environment = some s ∧ s.enabled = false) := by
  unfold featureSkipped
  rcases hs : envSettings f environment with _ | s
  · simp
  · simp only [hs, Bool.or_eq_true, Bool.not_eq_true', Option.some.injEq]
    constructor
    · rintro (h | h)
      · exact Or.inr (Or.inr ⟨s, rfl, h⟩)
      · exact Or.inl h
    · rintro (h | h | ⟨s', hs', h⟩)
      · exact Or.inr h
      · exact absurd h (by simp)
      · exact Or.inl (hs' ▸ h)

theorem foldl_addFeatureDef_lookup_none (environment : String) (i : String) :
    ∀ (features : List FeatureInterface) (defs : List (String × FeatureDefinition)),
      (∀ g ∈ features, g.id = i → featureSkipped g environment = true) →
      jsLookup defs i = none →
      jsLookup (features.foldl (addFeatureDef environment) defs) i = none := by
  intro features
  induction features with
  | nil => intro defs _ h; simpa using h
  | cons g rest ih =>
    intro defs hall hnone
    rw [List.foldl_cons]
    apply ih
    · intro g' hg' hid
      exact hall g' (List.mem_cons_of_mem _ hg') hid
    · by_cases hid : g.id = i
      · rw [addFeatureDef_skipped environment defs g
          (hall g (List.mem_cons_self _ _) hid)]
        exact hnone
      · rw [jsLookup_addFeatureDef_ne environment defs g i
          (fun hh => hid hh.symm)]
        exact hnone

theorem foldl_addFeatureDef_lookup_set (environment : String)
    (f : FeatureInterface) (s : FeatureEnvironment)
    (hs : envSettings f environment = some s)
    (hen : s.enabled = true) (har : f.archived = false) :
    ∀ (features : List FeatureInterface) (defs : List (String × FeatureDefinition)),
      (∀ g ∈ features, g.id = f.id → g = f) →
      (f ∈ features ∨ jsLookup defs f.id = some (compileFeatureDef f s)) →
      jsLookup (features.foldl (addFeatureDef environment) defs) f.id =
        some (compileFeatureDef f s) := by
  intro features
  induction features with
  | nil =>
    intro defs _ hor
    rcases hor with hmem | hlk
    · exact absurd hmem (List.not_mem_nil f)
    · simpa using hlk
  | cons g rest ih =>
    intro defs huniq hor
    rw [List.foldl_cons]
    by_cases hid : g.id = f.id
    · have hg : g = f := huniq g (List.mem_cons_self _ _) hid
      rw [hg, addFeatureDef_active environment defs f s hs hen har]
      apply ih
      · intro g' hg' hid'
        exact huniq g' (List.mem_cons_of_mem _ hg') hid'
      · exact Or.inr (jsLookup_recordSet_self defs f.id _)
    · have hne : f.id ≠ g.id := fun hh => hid hh.symm
      apply ih
      · intro g' hg' hid'
        exact huniq g' (List.mem_cons_of_mem _ hg') hid'
      · rcases hor with hmem | hlk
        · rcases List.mem_cons.mp hmem with heq | hm
          · exfalso; apply hid; rw [← heq]
          · exact Or.inl hm
        · rw [jsLookup_addFeatureDef_ne environment defs g f.id hne]
          exact Or.inr hlk

/-! ### Claim theorems -/

/-- Claim C1: `getJSONValue` returns, for every raw string: with type
`"json"` the parsed JSON or `null` on parse failure; with `"number"` the
parsed float or `0` on a `NaN` parse; with `"string"` the raw value
unchanged; with `"boolean"` `false` exactly for the string `"false"` and
`true` otherwise (including `""`, `"0"`, `"no"`); and `null` for any
other value type.  The concrete fallback cases of the spec are included. -/
theorem getJSONValue_cases (v : String) :
    getJSONValue "json" v =
      (match jsonParse v with | some j => j | none => JSValue.null) ∧
    getJSONValue "number" v = JSValue.num ((parseFloat v).getD 0) ∧
    getJSONValue "string" v = JSValue.str v ∧
    getJSONValue "boolean" v =
      JSValue.bool (if v = "false" then false else true) ∧
    (∀ t : String,
      t ∉ (["json", "number", "string", "boolean"] : List String) →
        getJSONValue t v = JSValue.null) ∧
    getJSONValue "json" "\x7bnot valid" = JSValue.null ∧
    getJSONValue "number" "abc" = JSValue.num 0 ∧
    getJSONValue "boolean" "false" = JSValue.bool false ∧
    getJSONValue "boolean" "" = JSValue.bool true ∧
    getJSONValue "boolean" "no" = JSValue.bool true := by
  refine ⟨rfl, rfl, rfl, rfl, ?_, rfl, rfl, rfl, rfl, rfl⟩
  intro t ht
  simp only [List.mem_cons, List.not_mem_nil, or_false, not_or] at ht
  obtain ⟨h1, h2, h3, h4⟩ := ht
  unfold getJSONValue
  rw [if_neg h1, if_neg h2, if_neg h3, if_neg h4]

/-- Witness for C1: a value type outside the four recognized ones maps
to `null`. -/
theorem getJSONValue_cases_witness :
    getJSONValue "date" "x" = JSValue.null :=
  (getJSONValue_cases "x").2.2.2.2.1 "date" (by decide)

/-- Claim C2 counterexample: an enabled rule of unrecognized type
`"bogus"` contributes a record (with no fields set) to its feature's
compiled rules — it is not omitted, contradicting "a rule with an
unrecognized type contributes no record". -/
theorem unrecognized_type_rule_kept :
    ("bogus" ∉ (["force", "experiment", "rollout"] : List String)) ∧
    ¬ (jsLookup (getFeatureDefinitions [bogusRuleFeature] "production") "f1" =
        some { defaultValue := JSValue.str "d", rules := none }) ∧
    jsLookup (getFeatureDefinitions [bogusRuleFeature] "production") "f1" =
      some { defaultValue := JSValue.str "d",
             rules := some [({} : FeatureDefinitionRule)] } := by
  refine ⟨by decide, ?_, rfl⟩
  intro h
  rw [show jsLookup (getFeatureDefinitions [bogusRuleFeature] "production") "f1" =
      some { defaultValue := JSValue.str "d",
             rules := some [({} : FeatureDefinitionRule)] } from rfl] at h
  simp at h

/-- Claim C2 (amended): the rule compiler never returns a null/omission
marker — a rule whose type is not force/experiment/rollout still yields
a record, with only the condition handling applied; and the assembler
attaches the compiled image of every enabled rule (no null-filtering
step exists). -/
theorem compileRule_unrecognized_type (valueType : String) (r : FeatureRule)
    (h : r.type ∉ (["force", "experiment", "rollout"] : List String)) :
    compileRule valueType r =
      { condition :=
          match r.condition with
          | some c => if c ≠ "" ∧ c ≠ "\x7b\x7d" then jsonParse c else none
          | none => none } ∧
    (∀ (feature : FeatureInterface) (settings : FeatureEnvironment)
        (rs : List FeatureRule), settings.rules = some rs →
      (compileFeatureDef feature settings).rules =
        (if ((rs.filter (fun r => r.enabled)).map
              (compileRule feature.valueType)).isEmpty then none
         else some ((rs.filter (fun r => r.enabled)).map
              (compileRule feature.valueType)))) := by
  simp only [List.mem_cons, List.not_mem_nil, or_false, not_or] at h
  obtain ⟨h1, h2, h3⟩ := h
  constructor
  · unfold compileRule
    rw [if_neg h1, if_neg h2, if_neg h3]
  · intro feature settings rs hrs
    simp [compileFeatureDef, hrs]

/-- Witness for the amended C2. -/
theorem compileRule_unrecognized_type_witness :
    compileRule "string" ({ type := "bogus" } : FeatureRule) =
      { condition := none } :=
  (compileRule_unrecognized_type "string" { type := "bogus" } (by decide)).1

/-- Claim C3: a feature that is archived, or has no settings entry for
the requested environment, or whose settings entry is disabled,
contributes no entry (not even a placeholder) to the assembled mapping
(assuming, per the data-model invariant, that no other feature shares
its id). -/
theorem getFeatureDefinitions_no_entry_for_skipped
    (features : List FeatureInterface) (environment : String)
    (f : FeatureInterface)
    (hmem : f ∈ features)
    (hskip : f.archived = true ∨ envSettings f environment = none ∨
      ∃ s, envSettings f environment = some s ∧ s.enabled = false)
    (huniq : ∀ g ∈ features, g.id = f.id → g = f) :
    jsLookup (getFeatureDefinitions features environment) f.id = none := by
  have hsk : featureSkipped f environment = true :=
    (featureSkipped_eq_true_iff f environment).mpr hskip
  unfold getFeatureDefinitions
  apply foldl_addFeatureDef_lookup_none
  · intro g hg hid
    rw [huniq g hg hid]
    exact hsk
  · rfl

/-- Witness for C3: an archived feature produces no entry. -/
theorem getFeatureDefinitions_no_entry_for_skipped_witness :
    jsLookup (getFeatureDefinitions [archivedFeature] "production") "af" = none :=
  getFeatureDefinitions_no_entry_for_skipped [archivedFeature] "production"
    archivedFeature (List.mem_singleton.mpr rfl) (Or.inl rfl)
    (fun g hg _ => List.mem_singleton.mp hg)

/-- Claim C4: for a feature that passes the skip check, the emitted
definition's `rules` field is the compiled image of exactly the enabled
rules of the environment's sequence, in stored order, and the field is
absent (not an empty list) when that image is empty. -/
theorem getFeatureDefinitions_entry (features : List FeatureInterface)
    (environment : String) (f : FeatureInterface) (s : FeatureEnvironment)
    (hmem : f ∈ features)
    (hs : envSettings f environment = some s)
    (hen : s.enabled = true) (har : f.archived = false)
    (huniq : ∀ g ∈ features, g.id = f.id → g = f) :
    jsLookup (getFeatureDefinitions features environment) f.id =
      some { defaultValue := getJSONValue f.valueType f.defaultValue,
             rules :=
               if (((s.rules.getD []).filter (fun r => r.enabled)).map
                     (compileRule f.valueType)).isEmpty then
                 none
               else
                 some (((s.rules.getD []).filter (fun r => r.enabled)).map
                   (compileRule f.valueType)) } := by
  have h := foldl_addFeatureDef_lookup_set environment f s hs hen har features []
    huniq (Or.inl hmem)
  unfold getFeatureDefinitions
  rw [h]
  congr 1
  rcases hr : s.rules with _ | rs <;> simp [compileFeatureDef, hr]

/-- Witness for C4: a feature whose only rule is disabled gets a
definition with no `rules` field. -/
theorem getFeatureDefinitions_entry_witness :
    jsLookup (getFeatureDefinitions [allOffFeature] "production") "ff" =
      some { defaultValue := getJSONValue "string" "d", rules := none } := by
  have h := getFeatureDefinitions_entry [allOffFeature] "production" allOffFeature
    { enabled := true,
      rules := some [{ type := "force", enabled := false, value := "x" }] }
    (List.mem_singleton.mpr rfl) rfl rfl rfl (fun g hg _ => List.mem_singleton.mp hg)
  exact h

/-- The condition field of a compiled rule is independent of the rule's
type branch (it is set before the branch in the source). -/
theorem compileRule_condition_eq (valueType : String) (r : FeatureRule) :
    (compileRule valueType r).condition =
      (match r.condition with
       | some c => if c ≠ "" ∧ c ≠ "\x7b\x7d" then jsonParse c else none
       | none => none) := by
  unfold compileRule
  by_cases h1 : r.type = "force"
  · rw [if_pos h1]
  · rw [if_neg h1]
    by_cases h2 : r.type = "experiment"
    · rw [if_pos h2]
    · rw [if_neg h2]
      by_cases h3 : r.type = "rollout"
      · rw [if_pos h3]
      · rw [if_neg h3]

/-- Claim C5: the experiment-weight pipeline (clamp to `[0,1]`, then
`roundVariationWeight`) is idempotent; it maps 1.23456 to 1 and -0.2 to
0; and it is exactly the per-weight map the rule compiler applies to
experiment variation weights. -/
theorem normalizeWeight_idempotent :
    (∀ w : ℚ, normalizeWeight (normalizeWeight w) = normalizeWeight w) ∧
    normalizeWeight 1.23456 = 1 ∧
    normalizeWeight (-0.2) = 0 ∧
    (∀ (valueType : String) (r : FeatureRule), r.type = "experiment" →
      (compileRule valueType r).weights =
        some ((r.values.map (fun v => v.weight)).map normalizeWeight)) := by
  refine ⟨?_, rfl, rfl, ?_⟩
  · intro w
    unfold normalizeWeight roundVariationWeight
    set c : ℚ := if w < 0 then 0 else if w > 1 then 1 else w with hc
    have hc0 : 0 ≤ c := by
      rw [hc]; split_ifs with h1 h2
      · exact le_refl 0
      · norm_num
      · exact not_lt.mp h1
    have hc1 : c ≤ 1 := by
      rw [hc]; split_ifs with h1 h2
      · norm_num
      · exact le_refl 1
      · exact not_lt.mp h2
    set k : ℤ := round (c * 1000) with hk
    have hk0 : (0:ℤ) ≤ k := by
      have h1 : c * 1000 + 1/2 < (k:ℚ) + 1 := by
        rw [hk, round_eq]; exact Int.lt_floor_add_one _
      have h2 : (-1:ℚ) < (k:ℚ) := by nlinarith
      have h3 : (-1:ℤ) < k := by exact_mod_cast h2
      omega
    have hk1 : k ≤ 1000 := by
      have h1 : ((k:ℚ)) ≤ c * 1000 + 1/2 := by
        rw [hk, round_eq]; exact Int.floor_le _
      have h2 : (k:ℚ) < 1001 := by nlinarith
      have h3 : (k:ℤ) < 1001 := by exact_mod_cast h2
      omega
    have hq0 : (0:ℚ) ≤ (k:ℚ)/1000 := by
      apply div_nonneg _ (by norm_num)
      exact_mod_cast hk0
    have hq1 : (k:ℚ)/1000 ≤ 1 := by
      rw [div_le_one (by norm_num : (0:ℚ) < 1000)]
      exact_mod_cast hk1
    rw [if_neg (not_lt.mpr hq0), if_neg (not_lt.mpr hq1)]
    rw [div_mul_cancel₀ _ (by norm_num : (1000:ℚ) ≠ 0), round_intCast]
  · intro valueType r hexp
    simp [compileRule, hexp, List.map_map, normalizeWeight, Function.comp]

/-- Witness for C5: the pipeline as used by the compiler on a concrete
experiment rule. -/
theorem normalizeWeight_idempotent_witness :
    (compileRule "string"
      ({ type := "experiment",
         values := [{ value := "a", weight := 1.2 }] } : FeatureRule)).weights =
      some ([(1.2 : ℚ)].map normalizeWeight) :=
  (normalizeWeight_idempotent).2.2.2 "string"
    { type := "experiment", values := [{ value := "a", weight := 1.2 }] } rfl

/-- Claim C6: the compiled record's condition is the parsed JSON of the
rule's condition exactly when a condition is present, differs from the
literal `"{}"` string, and parses; a parse failure is swallowed (the
field is simply absent) — compilation of a malformed condition is total
and produces a record. -/
theorem compileRule_condition_field (valueType : String) (r : FeatureRule)
    (j : JSValue) :
    ((compileRule valueType r).condition = some j ↔
      ∃ c, r.condition = some c ∧ c ≠ "\x7b\x7d" ∧ jsonParse c = some j) ∧
    (compileRule "string" badConditionRule).condition = none := by
  refine ⟨?_, rfl⟩
  rw [compileRule_condition_eq]
  constructor
  · intro h
    rcases hc : r.condition with _ | c
    · rw [hc] at h; exact absurd h (by simp)
    · rw [hc] at h
      have h' : (if c ≠ "" ∧ c ≠ "\x7b\x7d" then jsonParse c else none) = some j := h
      by_cases hne : c ≠ "" ∧ c ≠ "\x7b\x7d"
      · rw [if_pos hne] at h'
        exact ⟨c, rfl, hne.2, h'⟩
      · rw [if_neg hne] at h'; exact absurd h' (by simp)
  · rintro ⟨c, hc, hne, hp⟩
    rw [hc]
    have hcne : c ≠ "" := by
      intro h0
      rw [h0] at hp
      rw [show jsonParse "" = none from rfl] at hp
      exact absurd hp (by simp)
    show (if c ≠ "" ∧ c ≠ "\x7b\x7d" then jsonParse c else none) = some j
    rw [if_pos (⟨hcne, hne⟩ : c ≠ "" ∧ c ≠ "\x7b\x7d")]
    exact hp

/-- Witness for C6: a malformed condition is swallowed. -/
theorem compileRule_condition_field_witness :
    (compileRule "string" badConditionRule).condition = none :=
  (compileRule_condition_field "string" badConditionRule JSValue.null).2

/-- Claim C7: for experiment rules, the compiled namespace field is
present exactly when the rule's namespace is enabled with a non-empty
name, in which case it is the triple of the name and the two
`parseFloat`-parsed range bounds (each defaulting to 0 on parse
failure); the spec's concrete namespace cases are included. -/
theorem compileRule_namespace_field (valueType : String) (r : FeatureRule)
    (hexp : r.type = "experiment") :
    (∀ (name : String) (lo hi : ℚ),
      (compileRule valueType r).nspace = some (name, lo, hi) ↔
        ∃ ns, r.nspace = some ns ∧ ns.enabled = true ∧ ns.name ≠ "" ∧
          name = ns.name ∧ lo = (parseFloat ns.range0).getD 0 ∧
          hi = (parseFloat ns.range1).getD 0) ∧
    (compileRule "string" (nsRule true)).nspace = some ("n1", 0.1, 0.6) ∧
    (compileRule "string" (nsRule false)).nspace = none := by
  refine ⟨?_, rfl, rfl⟩
  intro name lo hi
  have hns : (compileRule valueType r).nspace =
      (match r.nspace with
       | some ns =>
         if ns.enabled ∧ ns.name ≠ "" then
           some (ns.name, (parseFloat ns.range0).getD 0,
             (parseFloat ns.range1).getD 0)
         else none
       | none => none) := by
    unfold compileRule
    rw [if_neg (by rw [hexp]; decide), if_pos hexp]
  rw [hns]
  constructor
  · intro h
    rcases hn : r.nspace with _ | ns
    · rw [hn] at h; exact absurd h (by simp)
    · rw [hn] at h
      have h' : (if ns.enabled ∧ ns.name ≠ "" then
          some (ns.name, (parseFloat ns.range0).getD 0,
            (parseFloat ns.range1).getD 0)
        else none) = some (name, lo, hi) := h
      by_cases hcond : ns.enabled = true ∧ ns.name ≠ ""
      · rw [if_pos (show (ns.enabled ∧ ns.name ≠ "") from ⟨hcond.1, hcond.2⟩)] at h'
        simp only [Option.some.injEq, Prod.mk.injEq] at h'
        exact ⟨ns, rfl, hcond.1, hcond.2, h'.1.symm, h'.2.1.symm, h'.2.2.symm⟩
      · rw [if_neg (fun hh : (ns.enabled ∧ ns.name ≠ "") => hcond ⟨hh.1, hh.2⟩)] at h'
        exact absurd h' (by simp)
  · rintro ⟨ns, hn, hen, hname, h1, h2, h3⟩
    rw [hn]
    show (if ns.enabled ∧ ns.name ≠ "" then
        some (ns.name, (parseFloat ns.range0).getD 0,
          (parseFloat ns.range1).getD 0)
      else none) = some (name, lo, hi)
    rw [if_pos (show (ns.enabled ∧ ns.name ≠ "") from ⟨hen, hname⟩),
      h1, h2, h3]

/-- Witness for C7: applies the namespace characterization to the
spec's enabled concrete namespace. -/
theorem compileRule_namespace_field_witness :
    (compileRule "string" (nsRule true)).nspace = some ("n1", 0.1, 0.6) :=
  (compileRule_namespace_field "string" (nsRule true) rfl).2.1

/-- Claim C8 counterexample: a rollout rule that supplies the empty
string as hashAttribute compiles with the field absent (the source's
`if (r.hashAttribute)` is a truthiness test, not a presence test), so
"hashAttribute is present exactly when the rule supplies one" is false
at this input. -/
theorem rollout_empty_hashAttribute_dropped :
    emptyHashRule.type = "rollout" ∧
    emptyHashRule.hashAttribute ≠ none ∧
    (compileRule "string" emptyHashRule).hashAttribute = none := by
  refine ⟨rfl, by simp [emptyHashRule], rfl⟩

/-- Claim C8 (amended): for rollout rules, the compiled force is the
coerced value, coverage is the input clamped to `[0,1]`, and
hashAttribute is present exactly when the rule supplies a non-empty
one; the spec's end-to-end show-banner scenario compiles exactly as
stated (coverage clamped from 1.5 to 1). -/
theorem compileRule_rollout_fields (valueType : String) (r : FeatureRule)
    (hro : r.type = "rollout") :
    (compileRule valueType r).force = some (getJSONValue valueType r.value) ∧
    (compileRule valueType r).coverage =
      some (if r.coverage > 1 then 1 else if r.coverage < 0 then 0
        else r.coverage) ∧
    (∀ h : String, (compileRule valueType r).hashAttribute = some h ↔
      r.hashAttribute = some h ∧ h ≠ "") ∧
    getFeatureDefinitions [showBannerFeature] "production" =
      [("show-banner",
        { defaultValue := JSValue.bool true,
          rules := some [{ force := some (JSValue.bool false),
                           coverage := some 1,
                           hashAttribute := some "id" }] })] := by
  have hha : (compileRule valueType r).hashAttribute =
      (if strortruthy r.hashAttribute then r.hashAttribute else none) := by
    unfold compileRule
    rw [if_neg (by rw [hro]; decide), if_neg (by rw [hro]; decide), if_pos hro]
  refine ⟨?_, ?_, ?_, rfl⟩
  · simp [compileRule, hro]
  · simp [compileRule, hro]
  · intro h
    rw [hha]
    rcases hh : r.hashAttribute with _ | s
    · simp [strortruthy]
    · by_cases hs : s = ""
      · subst hs
        rw [if_neg (by simp [strortruthy] : ¬(strortruthy (some "") = true))]
        constructor
        · intro heq; exact absurd heq (by simp)
        · rintro ⟨heq, hne⟩
          exact absurd (Option.some.inj heq).symm hne
      · rw [if_pos (by simp [strortruthy, hs] : strortruthy (some s) = true)]
        constructor
        · intro heq
          refine ⟨heq, ?_⟩
          have hsh : s = h := Option.some.inj heq
          rw [← hsh]; exact hs
        · exact fun h2 => h2.1

/-- Witness for the amended C8: applies the rollout characterization to
the end-to-end scenario's rule. -/
theorem compileRule_rollout_fields_witness :
    (compileRule "boolean" showBannerRule).force = some (JSValue.bool false) :=
  (compileRule_rollout_fields "boolean" showBannerRule rfl).1

/-- Claim C9: an update request containing any key outside the
allow-list {tags, description, project, owner} makes
`updateFeatureService` throw an error listing every invalid key at
once, and the throw happens before the persistence call — no
`updateFeature` effect is produced, so the feature is not mutated. -/
theorem updateFeatureService_invalid_keys
    (findProjectById : String → String → Bool)
    (updates : List (String × String)) (feature : FeatureInterface)
    (featureId : String)
    (hinv : (updates.map (fun p => p.1)).filter
        (fun k => (allowedKeys.contains k) = false) ≠ []) :
    updateFeatureService findProjectById updates feature featureId =
      .error ("Invalid update fields for feature: [" ++
        String.intercalate ", "
          ((updates.map (fun p => p.1)).filter
            (fun k => (allowedKeys.contains k) = false)) ++ "]") ∧
    ∀ effects, updateFeatureService findProjectById updates feature featureId ≠
      Except.ok effects := by
  have hfalse : ((updates.map (fun p => p.1)).filter
      (fun k => (allowedKeys.contains k) = false)).isEmpty = false := by
    rcases hl : (updates.map (fun p => p.1)).filter
        (fun k => (allowedKeys.contains k) = false) with _ | ⟨a, as⟩
    · exact absurd hl hinv
    · rw [hl]; rfl
  have hmain : updateFeatureService findProjectById updates feature featureId =
      .error ("Invalid update fields for feature: [" ++
        String.intercalate ", "
          ((updates.map (fun p => p.1)).filter
            (fun k => (allowedKeys.contains k) = false)) ++ "]") := by
    unfold updateFeatureService
    rw [if_pos hfalse]
  refine ⟨hmain, ?_⟩
  intro effects h
  rw [hmain] at h
  exact absurd h (by simp)

/-- Witness for C9: two invalid keys are both reported, and the call
errors. -/
theorem updateFeatureService_invalid_keys_witness :
    updateFeatureService (fun _ _ => true)
      [("id", "x"), ("defaultValue", "y"), ("tags", "t")]
      updateTargetFeature "uf" =
      .error "Invalid update fields for feature: [id, defaultValue]" := by
  have h := (updateFeatureService_invalid_keys (fun _ _ => true)
    [("id", "x"), ("defaultValue", "y"), ("tags", "t")]
    updateTargetFeature "uf" (by decide)).1
  exact h

/-- Claim C10: a feature created through `createFeatureService` with
value type boolean stores defaultValue `"true"` exactly when the
supplied default is the string `"true"` and `"false"` for every other
accepted input — even for `"yes"` or `"1"`, which the value coercer
would map to `true` at compile time. -/
theorem createFeatureService_boolean_default
    (genRuleId : Nat → String) (now : Nat) (feature : CreateFeatureRequest)
    (stored : FeatureInterface)
    (hvt : feature.valueType = some "boolean")
    (hok : createFeatureService genRuleId now feature = .ok stored) :
    (∃ d, feature.defaultValue = some d ∧
      stored.defaultValue = (if d = "true" then "true" else "false")) ∧
    getJSONValue "boolean" "yes" = JSValue.bool true ∧
    getJSONValue "boolean" "1" = JSValue.bool true := by
  refine ⟨?_, rfl, rfl⟩
  rcases hd : feature.defaultValue with _ | d
  · exfalso
    simp only [createFeatureService] at hok
    rw [hvt, hd] at hok
    iterate 4 (split at hok <;> try exact Except.noConfusion hok)
  · refine ⟨d, rfl, ?_⟩
    simp only [createFeatureService] at hok
    rw [hvt, hd] at hok
    iterate 7 (split at hok <;> try exact Except.noConfusion hok)
    split at hok
    · exact Except.noConfusion hok
    · rename_i dv heq
      have heq' : Except.ok (if d = "true" then "true" else "false") =
          Except.ok dv := heq
      have hdv : dv = (if d = "true" then "true" else "false") :=
        (Except.ok.inj heq').symm
      have hrec := Except.ok.inj hok
      rw [← hrec]
      exact hdv

/-- Witness for C10: creating a boolean feature with supplied default
`"yes"` stores `"false"`. -/
theorem createFeatureService_boolean_default_witness :
    (∃ d, yesDefaultRequest.defaultValue = some d ∧
      yesDefaultStored.defaultValue = (if d = "true" then "true" else "false")) ∧
    getJSONValue "boolean" "yes" = JSValue.bool true ∧
    getJSONValue "boolean" "1" = JSValue.bool true :=
  createFeatureService_boolean_default seqRuleId 0 yesDefaultRequest
    yesDefaultStored rfl rfl
